import Mathlib

/-!
Verification development for the `Tiktokdashing` trending-aggregation pipeline
(`tiktok_api_trending.py`, with `_coerce_int` / `extract_sound_video_count`
duplicated in `hydrate_sounds.py`).

The Python code is shallowly embedded:

* Python scalar values that can sit in the stat / id fields of a raw payload
  are modelled by `Scalar` (`None`, `int`, `str`).  Python floats and the
  results of float arithmetic are modelled exactly by `Rat`; `float(x)`
  applied to a scalar is modelled by `pyFloat` (`none` = the call raises).
  The numeral accepted by `float` is modelled for optionally signed decimal
  numerals (scientific notation, `inf`/`nan` and underscores are outside the
  modelled domain).
* Arbitrarily shaped JSON-ish payloads (needed by the sound-info extraction,
  which probes nested dictionaries of unknown shape) are modelled by `JVal`.
* Python dicts are modelled by insertion-ordered association lists
  (`updAssoc` / `lookupA`), matching dict iteration/`values()` order.
* String manipulation (strip/lower/split/…) is implemented over the
  character list of a `String`, mirroring Python semantics for ASCII text.
* File contents are modelled as lists of lines; collectors' network sources
  are modelled as functions from the pull index to the returned batch.
-/

/-- Characters matched by Python's `str.strip()` and the regex class `\s`
(ASCII range). -/
def pyIsSpaceChar (c : Char) : Bool :=
  c = ' ' || c = '\t' || c = '\n' || c = '\x0d' || c = '\x0c' || c = '\x0b'

/-- Python `str.strip()` on a character list. -/
def stripChars (cs : List Char) : List Char :=
  ((cs.dropWhile pyIsSpaceChar).reverse.dropWhile pyIsSpaceChar).reverse

/-- Python `str.strip()`. -/
def pyStrip (s : String) : String :=
  String.mk (stripChars s.data)

/-- Python `str.lower()` (ASCII). -/
def pyLower (s : String) : String :=
  String.mk (s.data.map Char.toLower)

/-- Split a character list at every character satisfying `p`; like Python
`re.split` on single characters, adjacent separators yield empty groups. -/
def splitChars (p : Char → Bool) : List Char → List (List Char)
  | [] => [[]]
  | c :: rest =>
    let r := splitChars p rest
    if p c then [] :: r
    else
      match r with
      | g :: gs => (c :: g) :: gs
      | [] => [[c]]

/-- The value of a non-empty all-digit character list; `none` otherwise
(Python `str.isdigit()` guard plus `int(...)`). -/
def digitsVal (cs : List Char) : Option Nat :=
  if cs ≠ [] ∧ cs.all Char.isDigit then
    some (cs.foldl (fun n c => 10 * n + (c.toNat - 48)) 0)
  else Option.none

/-- A Python scalar value as it may appear in the stat/id fields of a raw
payload dictionary.  `Scalar.none` stands both for an absent key (`dict.get`
returns `None`) and for an explicit `None` value, which the code never
distinguishes in these positions. -/
inductive Scalar where
  | none
  | int (n : Int)
  | str (s : String)
deriving DecidableEq

/-- Python truthiness of a `Scalar` (`bool(x)`). -/
def pyTruthy : Scalar → Bool
  | .none => false
  | .int n => n != 0
  | .str s => s != ""

/-- Python `a or b` on scalars. -/
def pyOr (a b : Scalar) : Scalar :=
  if pyTruthy a then a else b

/-- Python `str(x)` on a scalar (used only on truthy values in the code). -/
def scalarText : Scalar → String
  | .none => r"None"
  | .int n => toString n
  | .str s => s

/-- Digits-with-optional-point decimal numeral, as accepted by Python
`float` (without sign): `"12"`, `"1.5"`, `".5"`, `"1."`. -/
def parseDecimal (cs : List Char) : Option Rat :=
  match splitChars (fun c => c = '.') cs with
  | [a] => (digitsVal a).map (fun n => (n : Rat))
  | [a, b] =>
    if a = [] ∧ b = [] then Option.none
    else
      match (if a = [] then some 0 else digitsVal a),
            (if b = [] then some 0 else digitsVal b) with
      | some ia, some ib => some ((ia : Rat) + (ib : Rat) / ((10 : Rat) ^ b.length))
      | _, _ => Option.none
  | _ => Option.none

/-- Python `float(string)` on an optionally signed decimal numeral;
`none` models a raised `ValueError`. -/
def parseFloatStr (s : String) : Option Rat :=
  match s.data with
  | '-' :: rest => (parseDecimal rest).map (fun q => -q)
  | '+' :: rest => parseDecimal rest
  | cs => parseDecimal cs

/-- Python `float(x)` on a scalar; `none` models a raised exception. -/
def pyFloat : Scalar → Option Rat
  | .none => Option.none
  | .int n => some (n : Rat)
  | .str s => parseFloatStr s

/-- `safe_ratio` (tiktok_api_trending.py:176-182): substitute `0` for falsy
operands, convert with `float`, return `n / d` when `d > 0` and `0.0`
otherwise; any conversion exception yields `0.0`. -/
def safe_ratio (n d : Scalar) : Rat :=
  let n1 := if pyTruthy n then n else Scalar.int 0
  let d1 := if pyTruthy d then d else Scalar.int 0
  match pyFloat n1, pyFloat d1 with
  | some nv, some dv => if 0 < dv then nv / dv else 0
  | _, _ => 0

example : safe_ratio (Scalar.int 1) (Scalar.int 2) = 1 / 2 := by
  simp [safe_ratio, pyFloat, pyTruthy]
example : safe_ratio (Scalar.int 7) (Scalar.int 0) = 0 := by decide
example : safe_ratio (Scalar.str (r"x")) (Scalar.int 2) = 0 := by decide
example : safe_ratio (Scalar.int 1) (Scalar.int (-1)) = 0 := by decide
example : parseFloatStr (r"-2") = some (-2) := by decide
example : parseFloatStr (r"") = Option.none := by decide
example : pyLower (r"Raah Skeleton!") = r"raah skeleton!" := by decide
example : pyStrip (r"  ab ") = r"ab" := by decide

/-! ## JSON-shaped values (sound-info payloads) -/

/-- A JSON-ish Python value of arbitrary shape, as returned by the sound-info
lookup.  Floats are represented exactly by `Rat`. -/
inductive JVal where
  | jnull
  | jint (n : Int)
  | jnum (q : Rat)
  | jstr (s : String)
  | jarr (xs : List JVal)
  | jobj (fields : List (String × JVal))

/-- `cur.get(key)` for a dict-shaped value, and `None` for any non-dict
(mirrors the `isinstance(cur, dict)` guard: both a missing key and a
non-dict receiver produce `None`, modelled as `jnull`). -/
def jGet (j : JVal) (k : String) : JVal :=
  match j with
  | .jobj fields =>
    match fields.find? (fun p => p.1 == k) with
    | some p => p.2
    | Option.none => JVal.jnull
  | _ => JVal.jnull

/-- Python `int(q)` on a float: truncation toward zero. -/
def ratTrunc (q : Rat) : Int :=
  if q < 0 then -((-q).floor) else q.floor

/-- `_coerce_int` (tiktok_api_trending.py:222-233, hydrate_sounds.py): `None`
and non-numeric shapes yield `None`; ints pass through; floats truncate;
strings are accepted after removing commas and stripping iff all digits. -/
def coerce_int : JVal → Option Int
  | .jnull => Option.none
  | .jint n => some n
  | .jnum q => some (ratTrunc q)
  | .jstr s =>
    (digitsVal (stripChars (s.data.filter (fun c => c ≠ ',')))).map
      (fun n => (n : Int))
  | _ => Option.none

/-- Walk one candidate path through the payload
(the inner `for key in path` loop). -/
def lookPath (j : JVal) (path : List String) : JVal :=
  path.foldl jGet j

/-- The ordered candidate paths probed by `extract_sound_video_count`. -/
def soundCountPaths : List (List String) :=
  [[r"stats", r"videoCount"],
   [r"stats", r"videoCountV2"],
   [r"stats", r"videoCountStr"],
   [r"music", r"stats", r"videoCount"],
   [r"music", r"videoCount"],
   [r"videoCount"]]

/-- The `for path in [...]` loop: first path whose walked value coerces. -/
def firstCount (j : JVal) : List (List String) → Option Int
  | [] => Option.none
  | p :: rest =>
    match coerce_int (lookPath j p) with
    | some n => some n
    | Option.none => firstCount j rest

/-- `extract_sound_video_count` (tiktok_api_trending.py:236-254). -/
def extract_sound_video_count (sound_info : JVal) : Option Int :=
  firstCount sound_info soundCountPaths

example :
    extract_sound_video_count
      (JVal.jobj [(r"stats", JVal.jobj [(r"videoCount", JVal.jint 42)])]) =
      some 42 := by decide
example :
    extract_sound_video_count (JVal.jobj [(r"videoCount", JVal.jstr (r"1,234"))]) =
      some 1234 := by decide
example : extract_sound_video_count (JVal.jarr [JVal.jint 5]) = Option.none := by
  decide

/-! ## Seed lists (read / append with dedup) -/

/-- `read_lines` (tiktok_api_trending.py:65-75) on a file modelled as its
list of raw lines: strip each line, skip blank lines and `#` comments. -/
def read_lines (file : List String) : List String :=
  file.filterMap (fun line =>
    let s := pyStrip line
    if s = "" ∨ s.data.head? = some '#' then Option.none else some s)

/-- The accumulation loop of `write_lines_append_dedup`: `existing` is the
set of already-present lowercased keys; returns the lines to append. -/
def wladGo (existing : List String) : List String → List String
  | [] => []
  | x :: rest =>
    let s := pyStrip x
    if s = "" then wladGo existing rest
    else
      let key := pyLower s
      if key ∈ existing then wladGo existing rest
      else s :: wladGo (key :: existing) rest

/-- `write_lines_append_dedup` (tiktok_api_trending.py:78-98), modelled on a
file given as its list of lines: returns the new file contents and the
reported count of newly appended entries. -/
def write_lines_append_dedup (file : List String) (new_items : List String) :
    List String × Nat :=
  let existing := (read_lines file).map (fun x => pyLower (pyStrip x))
  let to_add := wladGo existing new_items
  (file ++ to_add, to_add.length)

example :
    write_lines_append_dedup [r"foobar"] [r"FooBar"] = ([r"foobar"], 0) := by
  decide
example :
    write_lines_append_dedup [r"# c", r"a"] [r"b", r"B", r"a"] =
      ([r"# c", r"a", r"b"], 1) := by decide

/-! ## Suggestion-phrase → hashtag candidates -/

/-- `MIN_HASHTAG_LEN` (tiktok_api_trending.py:40). -/
def MIN_HASHTAG_LEN : Nat := 3

/-- Characters kept by `re.sub(r"[^a-z0-9\s]+", "", p)`. -/
def suggestKeepChar (c : Char) : Bool :=
  ('a' ≤ c && c ≤ 'z') || ('0' ≤ c && c ≤ '9') || pyIsSpaceChar c

/-- The whitespace-separated words of the cleaned phrase.  Collapsing runs of
whitespace and stripping (`re.sub(r"\s+", " ", cleaned).strip()`) is the same
as splitting at whitespace and dropping empty groups. -/
def suggestWordsOf (p : String) : List (List Char) :=
  (splitChars pyIsSpaceChar (p.data.filter suggestKeepChar)).filter
    (fun w => w ≠ [])

/-- Join character-list words with a separator character list
(`" ".join` / `"_".join` / concatenation). -/
def joinWith (sep : List Char) : List (List Char) → List Char
  | [] => []
  | [w] => w
  | w :: ws => w ++ sep ++ joinWith sep ws

/-- The first-seen-order dedup loop used at the end of
`suggest_phrase_to_hashtag_candidates`, `extract_hashtags` and
`extract_suggest_words` (`if x and x not in seen`). -/
def dedupTruthy (seen : List String) : List String → List String
  | [] => []
  | x :: rest =>
    if x ≠ "" ∧ x ∉ seen then x :: dedupTruthy (x :: seen) rest
    else dedupTruthy seen rest

/-- `suggest_phrase_to_hashtag_candidates` (tiktok_api_trending.py:143-173).
The source forms `cleaned.replace(" ", "")` and `cleaned.replace(" ", "_")`
where `cleaned` is the single-space-collapsed strip; since `cleaned` is
exactly the words joined by single spaces, these are the words joined by
`""` resp. `"_"`. -/
def suggest_phrase_to_hashtag_candidates (phrase : String) : List String :=
  let p := pyLower (pyStrip phrase)
  if p = "" then []
  else
    match suggestWordsOf p with
    | [] => []
    | ws =>
      let joined := String.mk (joinWith [] ws)
      let underscored := String.mk (joinWith ['_'] ws)
      let out :=
        (if MIN_HASHTAG_LEN ≤ joined.length then [joined] else []) ++
        (if MIN_HASHTAG_LEN ≤ underscored.length then [underscored] else [])
      dedupTruthy [] out

example :
    suggest_phrase_to_hashtag_candidates (r"Raah Skeleton!") =
      [r"raahskeleton", r"raah_skeleton"] := by decide
example : suggest_phrase_to_hashtag_candidates (r"hi") = [] := by decide
example : suggest_phrase_to_hashtag_candidates (r"hello!") = [r"hello"] := by
  decide
example : suggest_phrase_to_hashtag_candidates (r"??!") = [] := by decide

/-! ## Raw payloads and extracted records -/

/-- The slimmed `raw` block kept by `slim_raw_thumbs`: only
`raw.video.cover` and `raw.author.avatarThumb`. -/
structure Thumbs where
  cover : JVal
  avatarThumb : JVal

/-- Truthiness of a `JVal` (Python `bool(x)`). -/
def pyTruthyJ : JVal → Bool
  | .jnull => false
  | .jint n => n != 0
  | .jnum q => q != 0
  | .jstr s => s != ""
  | .jarr xs => !xs.isEmpty
  | .jobj fs => !fs.isEmpty

/-- `_first_url` (tiktok_api_trending.py:196-202): for a dict-shaped image
object take `url_list or urlList`, and its head if it is a non-empty list.
Modelled domain: list heads that are strings (the code would pass any value
through; only string URLs occur). -/
def first_url (img : JVal) : Option String :=
  match img with
  | .jobj _ =>
    let urls := if pyTruthyJ (jGet img (r"url_list")) then jGet img (r"url_list")
                else jGet img (r"urlList")
    match urls with
    | .jarr (JVal.jstr s :: _) => some s
    | _ => Option.none
  | _ => Option.none

/-- One raw item as a structure holding exactly the dictionary entries
`extract_video` reads.  A `Scalar.none` / `Option.none` / `[]` field stands
for a missing key (or a missing enclosing block: `data.get("stats") or {}`
makes a missing block equivalent to all its keys missing).  `videoCover` and
`authorAvatarThumb` are the values of `_safe_get(data, "video", "cover")`
and `_safe_get(data, "author", "avatarThumb")`.  `textExtra` holds the
`hashtagName` entry of each `textExtra` element, `challenges` the `title`
of each challenge, and `suggestBlocks` the `word` entries of each
`video_suggest_words_struct` block. -/
structure RawPayload where
  id : Scalar := Scalar.none
  itemId : Scalar := Scalar.none
  awemeId : Scalar := Scalar.none
  desc : Scalar := Scalar.none
  createTime : Scalar := Scalar.none
  authorUniqueId : Option String := Option.none
  authorNickname : Scalar := Scalar.none
  authorVerified : Scalar := Scalar.none
  statsPlayCount : Scalar := Scalar.none
  statsViewCount : Scalar := Scalar.none
  statsDiggCount : Scalar := Scalar.none
  statsLikeCount : Scalar := Scalar.none
  statsCommentCount : Scalar := Scalar.none
  statsShareCount : Scalar := Scalar.none
  textExtra : List (Option String) := []
  challenges : List (Option String) := []
  suggestBlocks : List (List (Option String)) := []
  musicId : Scalar := Scalar.none
  musicTitle : Scalar := Scalar.none
  musicAuthorName : Scalar := Scalar.none
  musicOriginal : Scalar := Scalar.none
  videoCover : JVal := JVal.jnull
  authorAvatarThumb : JVal := JVal.jnull

/-- `extract_hashtags` (tiktok_api_trending.py:107-123): lowercase the
truthy `hashtagName`s, then the truthy challenge titles, then
order-preserving dedup. -/
def extract_hashtags (data : RawPayload) : List String :=
  let tags :=
    data.textExtra.filterMap (fun hn =>
      match hn with
      | some s => if s ≠ "" then some (pyLower s) else Option.none
      | Option.none => Option.none) ++
    data.challenges.filterMap (fun title =>
      match title with
      | some s => if s ≠ "" then some (pyLower s) else Option.none
      | Option.none => Option.none)
  dedupTruthy [] tags

/-- `extract_suggest_words` (tiktok_api_trending.py:126-140): collect the
truthy words of every suggest block, strip+lowercase, dedup. -/
def extract_suggest_words (data : RawPayload) : List String :=
  let out :=
    data.suggestBlocks.flatMap (fun block =>
      block.filterMap (fun w =>
        match w with
        | some word =>
          if word ≠ "" then some (pyLower (pyStrip word)) else Option.none
        | Option.none => Option.none))
  dedupTruthy [] out

/-- `build_url` (tiktok_api_trending.py:101-104). -/
def build_url (username : Option String) (vid : Scalar) : Option String :=
  match username with
  | some u =>
    if u ≠ "" ∧ pyTruthy vid then
      some ((r"https://www.tiktok.com/@") ++ u ++ (r"/video/") ++ scalarText vid)
    else Option.none
  | Option.none => Option.none

/-- `INCLUDE_RAW` (tiktok_api_trending.py:17); the full-raw branch of
`extract_video` stores the whole payload and is dead under this setting. -/
def INCLUDE_RAW : Bool := false

/-- `INCLUDE_RAW_THUMBS` (tiktok_api_trending.py:18). -/
def INCLUDE_RAW_THUMBS : Bool := true

/-- One canonical video record, holding exactly the dictionary entries the
rest of the pipeline reads or writes.  `source`/`sources`, `raw`,
`cover_url`, `author_avatar_url` and `score` use `Option` with
`Option.none` = key absent. -/
structure Record where
  id : Scalar
  url : Option String
  source : Option String
  sources : Option (List String)
  desc : Scalar
  createTime : Scalar
  authorUniqueId : Option String
  authorNickname : Scalar
  authorVerified : Scalar
  statsViews : Scalar
  statsLikes : Scalar
  statsComments : Scalar
  statsShares : Scalar
  hashtags : List String
  suggest_words : List String
  musicId : Scalar
  musicTitle : Scalar
  musicAuthorName : Scalar
  musicOriginal : Scalar
  raw : Option Thumbs
  cover_url : Option String
  author_avatar_url : Option String
  score_base : Rat
  score : Option Rat

/-- `extract_video` (tiktok_api_trending.py:260-329) with the configured
`INCLUDE_RAW = False`, `INCLUDE_RAW_THUMBS = True`. -/
def extract_video (data : RawPayload) (source : String) : Record :=
  let stats_plays := pyOr data.statsPlayCount (pyOr data.statsViewCount (Scalar.int 0))
  let stats_likes := pyOr data.statsDiggCount (pyOr data.statsLikeCount (Scalar.int 0))
  let stats_comments := pyOr data.statsCommentCount (Scalar.int 0)
  let stats_shares := pyOr data.statsShareCount (Scalar.int 0)
  let vid := pyOr data.id (pyOr data.itemId data.awemeId)
  let username := data.authorUniqueId
  let hashtags := extract_hashtags data
  let suggest_words := extract_suggest_words data
  let sound_id := data.musicId
  { id := vid
    url := build_url username vid
    source := some source
    sources := Option.none
    desc := data.desc
    createTime := data.createTime
    authorUniqueId := username
    authorNickname := data.authorNickname
    authorVerified := data.authorVerified
    statsViews := stats_plays
    statsLikes := stats_likes
    statsComments := stats_comments
    statsShares := stats_shares
    hashtags := hashtags
    suggest_words := suggest_words
    musicId := sound_id
    musicTitle := data.musicTitle
    musicAuthorName := data.musicAuthorName
    musicOriginal := data.musicOriginal
    raw := if INCLUDE_RAW_THUMBS then some ⟨data.videoCover, data.authorAvatarThumb⟩
           else Option.none
    cover_url := if INCLUDE_RAW_THUMBS then first_url data.videoCover else Option.none
    author_avatar_url :=
      if INCLUDE_RAW_THUMBS then first_url data.authorAvatarThumb else Option.none
    score_base :=
      safe_ratio stats_shares stats_plays * 4 +
      safe_ratio stats_comments stats_plays * 3 +
      safe_ratio stats_likes stats_plays * 1 +
      (if suggest_words ≠ [] then 2 else 0) +
      (if pyTruthy sound_id then 1 else 0)
    score := Option.none }

/-! ## Python dicts as insertion-ordered association lists -/

/-- Lookup in an insertion-ordered association list (`d.get(k)`). -/
def lookupA {κ α : Type} [BEq κ] (tbl : List (κ × α)) (k : κ) : Option α :=
  (tbl.find? (fun p => p.1 == k)).map (fun p => p.2)

/-- `d[k] = f(d[k]) if k in d else dflt`: update the entry in place if the
key is present, otherwise append a fresh entry (Python dicts preserve
insertion order). -/
def updAssoc {κ α : Type} [BEq κ] (tbl : List (κ × α)) (k : κ) (f : α → α)
    (dflt : α) : List (κ × α) :=
  match tbl.find? (fun p => p.1 == k) with
  | some _ => tbl.map (fun p => if p.1 == k then (p.1, f p.2) else p)
  | Option.none => tbl ++ [(k, dflt)]

/-- `d.get(k, 0)` for a counter dict. -/
def lookupD {κ : Type} [BEq κ] (tbl : List (κ × Nat)) (k : κ) : Nat :=
  (lookupA tbl k).getD 0

/-! ## dedupe_merge -/

/-- The duplicate-sighting branch of `dedupe_merge`
(tiktok_api_trending.py:340-361), applied to the canonical record
`existing` and a later record `r` with the same id:

* if `existing.get("sources")` is falsy (absent or `[]`), rebuild it from
  the truthy `source` value and pop `source`;
* append `r.get("source")` when truthy and not already present;
* copy `raw` when the key is absent in `existing` and present in `r`;
* copy `cover_url` / `author_avatar_url` when `existing`'s value `is None`
  and `r`'s value is truthy.

The `if not srcs:` rebuild: when `existing.get("sources")` is falsy
(absent or `[]`), start a fresh list from the truthy `source` value. -/
def rebuiltSources (existing : Record) : List String :=
  if existing.sources.getD [] = [] then
    match existing.source with
    | some s => if s ≠ "" then [s] else []
    | Option.none => []
  else existing.sources.getD []

/-- Append the duplicate's `source` tag when truthy and not yet present. -/
def appendSource (base : List String) (r : Record) : List String :=
  match r.source with
  | some s2 => if s2 ≠ "" ∧ s2 ∉ base then base ++ [s2] else base
  | Option.none => base

def mergeDup (existing r : Record) : Record :=
  { existing with
    source := if existing.sources.getD [] = [] then Option.none else existing.source
    sources := some (appendSource (rebuiltSources existing) r)
    raw := if existing.raw.isNone then r.raw else existing.raw
    cover_url :=
      if existing.cover_url = Option.none ∧ (r.cover_url.getD "") ≠ "" then
        r.cover_url
      else existing.cover_url
    author_avatar_url :=
      if existing.author_avatar_url = Option.none ∧
          (r.author_avatar_url.getD "") ≠ "" then
        r.author_avatar_url
      else existing.author_avatar_url }

/-- One iteration of the `for r in rows` loop of `dedupe_merge`: skip falsy
ids, insert first sightings, merge later ones into the canonical record. -/
def mergeStep (acc : List (Scalar × Record)) (r : Record) :
    List (Scalar × Record) :=
  if pyTruthy r.id then updAssoc acc r.id (fun e => mergeDup e r) r else acc

/-- `dedupe_merge` (tiktok_api_trending.py:332-363): `by_id` is the
insertion-ordered dict, the result is `list(by_id.values())`. -/
def dedupe_merge (rows : List Record) : List Record :=
  (rows.foldl mergeStep []).map (fun p => p.2)

/-! ## add_pool_level_scores -/

/-- Python `round(q, 4)` modelled on exact rationals. -/
def round4 (q : Rat) : Rat :=
  (round (q * 10000) : Int) / 10000

/-- `d[k] = d.get(k, 0) + 1` on a counter dict. -/
def bumpCount {κ : Type} [BEq κ] (tbl : List (κ × Nat)) (k : κ) : List (κ × Nat) :=
  updAssoc tbl k (· + 1) 1

/-- The corpus-wide hashtag frequency table of `add_pool_level_scores`
(one increment per occurrence in a record's `hashtags` list). -/
def hashtagFreq (rows : List Record) : List (String × Nat) :=
  rows.foldl (fun tbl r => r.hashtags.foldl bumpCount tbl) []

/-- The corpus-wide sound-id frequency table of `add_pool_level_scores`
(one increment per record with a truthy music id). -/
def soundFreq (rows : List Record) : List (Scalar × Nat) :=
  rows.foldl
    (fun tbl r => if pyTruthy r.musicId then bumpCount tbl r.musicId else tbl) []

/-- The per-record body of the second loop of `add_pool_level_scores`
(tiktok_api_trending.py:377-394), given the two frequency tables and the
privileged-accounts set. -/
def poolScore (hfreq : List (String × Nat)) (sfreq : List (Scalar × Nat))
    (big_accounts : List String) (r : Record) : Rat :=
  let score0 := r.score_base
  let rare_hits : Nat :=
    r.hashtags.foldl (fun n h => if lookupD hfreq h ≤ 2 then n + 1 else n) 0
  let score1 := score0 + min 3 ((rare_hits : Rat) * (1 / 2))
  let score2 :=
    if pyTruthy r.musicId ∧ lookupD sfreq r.musicId ≤ 2 then score1 + 1
    else score1
  let au := pyLower ((r.authorUniqueId).getD "")
  let score3 := if au ≠ "" ∧ au ∈ big_accounts then score2 + 1 else score2
  round4 score3

/-- `add_pool_level_scores` (tiktok_api_trending.py:366-394).  The Python
function mutates `rows` in place, setting `r["score"]`; the model returns
the updated list.  `score_base` is read through `float(... or 0.0)`, which
is the identity on the stored rational. -/
def add_pool_level_scores (rows : List Record) (big_accounts : List String) :
    List Record :=
  let hfreq := hashtagFreq rows
  let sfreq := soundFreq rows
  rows.map (fun r => { r with score := some (poolScore hfreq sfreq big_accounts r) })

/-! ## collect_trending -/

/-- `TRENDING_TARGET` (tiktok_api_trending.py:23). -/
def TRENDING_TARGET : Nat := 300

/-- The per-batch filtering loop of `collect_trending`
(tiktok_api_trending.py:442-451): items without a dict payload are skipped
(`None` entry), ids are or-chained, falsy or already-seen ids are skipped,
new ids are recorded and extracted.  Returns the grown seen-set and the
extracted new rows, in order. -/
def processBatch (seen : List Scalar) (batch : List (Option RawPayload)) :
    List Scalar × List Record :=
  batch.foldl
    (fun acc item =>
      match item with
      | Option.none => acc
      | some d =>
        let vid := pyOr d.id (pyOr d.itemId d.awemeId)
        if pyTruthy vid ∧ vid ∉ acc.1 then
          (vid :: acc.1, acc.2 ++ [extract_video d (r"trending")])
        else acc)
    (seen, [])

/-- The `while len(rows) < target` loop of `collect_trending`
(tiktok_api_trending.py:432-464).  `source k` is the batch returned by the
`k`-th trending pull; `pulls` counts the pulls issued (for observing stall
termination).  Terminates for every source: a productive pull shrinks
`target - rows.length`, an unproductive one shrinks `6 - stall`. -/
def trendingGo (source : Nat → List (Option RawPayload)) (target : Nat)
    (rows : List Record) (seen : List Scalar) (stall k pulls : Nat) :
    List Record × Nat :=
  if hlt : rows.length < target then
    let pr := processBatch seen (source k)
    if hnew : pr.2.isEmpty then
      if stall + 1 ≥ 6 then (rows.take target, pulls + 1)
      else trendingGo source target (rows ++ pr.2) pr.1 (stall + 1) (k + 1) (pulls + 1)
    else trendingGo source target (rows ++ pr.2) pr.1 0 (k + 1) (pulls + 1)
  else (rows.take target, pulls)
termination_by (target - rows.length, 6 - stall)
decreasing_by
  · have h0 : (processBatch seen (source k)).2 = [] := List.isEmpty_iff.mp hnew
    rw [h0, List.append_nil]
    exact Prod.Lex.right _ (by omega)
  · apply Prod.Lex.left
    have hpos : 0 < (processBatch seen (source k)).2.length := by
      have h1 : ¬ (processBatch seen (source k)).2.isEmpty := hnew
      cases hx : (processBatch seen (source k)).2 with
      | nil => rw [hx] at h1; simp at h1
      | cons a l => simp [hx]
    rw [List.length_append]
    exact Nat.sub_lt_sub_left hlt (by omega)

/-- `collect_trending` (tiktok_api_trending.py:432-464): the rows returned
(`rows[:target]`). -/
def collect_trending (source : Nat → List (Option RawPayload)) (target : Nat) :
    List Record :=
  (trendingGo source target [] [] 0 0 0).1

/-- The number of trending pulls issued by `collect_trending`. -/
def trendingPulls (source : Nat → List (Option RawPayload)) (target : Nat) :
    Nat :=
  (trendingGo source target [] [] 0 0 0).2

/-! ## Theorems: sound video-count extraction (C9) -/

theorem firstCount_eq_filterMap (j : JVal) :
    ∀ ps : List (List String),
      firstCount j ps = (ps.filterMap (fun p => coerce_int (lookPath j p))).head? := by
  intro ps
  induction ps with
  | nil => rfl
  | cons p rest ih =>
    simp only [firstCount, List.filterMap_cons]
    cases h : coerce_int (lookPath j p) with
    | none => simp [ih]
    | some n => simp

/-- C9: `extract_sound_video_count` tries exactly the ordered path list,
returns the integer coercion of the first path whose walked value coerces
(ints pass through, floats truncate toward zero, comma-separated digit
strings parse), returns `none` when no path yields a coercible value, and is
a total function of the payload shape (never raises). -/
theorem claim_C9 :
    (∀ j, extract_sound_video_count j =
      (soundCountPaths.filterMap (fun p => coerce_int (lookPath j p))).head?)
  ∧ (∀ j, (∀ p ∈ soundCountPaths, coerce_int (lookPath j p) = Option.none) →
      extract_sound_video_count j = Option.none)
  ∧ (∀ n : Int, coerce_int (JVal.jint n) = some n)
  ∧ (∀ q : Rat, coerce_int (JVal.jnum q) = some (ratTrunc q))
  ∧ coerce_int (JVal.jstr (r"1,234,567")) = some 1234567
  ∧ coerce_int (JVal.jstr (r"12.5")) = Option.none
  ∧ coerce_int JVal.jnull = Option.none
  ∧ extract_sound_video_count (JVal.jarr [JVal.jint 5]) = Option.none := by
  refine ⟨fun j => firstCount_eq_filterMap j soundCountPaths, ?_, ?_, ?_, ?_, ?_, ?_, ?_⟩
  · intro j h
    rw [extract_sound_video_count, firstCount_eq_filterMap j soundCountPaths]
    rw [List.filterMap_eq_nil_iff.mpr h]
    rfl
  · intro n; rfl
  · intro q; rfl
  · decide
  · decide
  · rfl
  · decide

theorem claim_C9_witness :
    (∀ p ∈ soundCountPaths,
      coerce_int (lookPath (JVal.jobj [(r"x", JVal.jint 3)]) p) = Option.none)
  ∧ extract_sound_video_count (JVal.jobj [(r"x", JVal.jint 3)]) = Option.none :=
  ⟨by decide, claim_C9.2.1 (JVal.jobj [(r"x", JVal.jint 3)]) (by decide)⟩

/-! ## Theorems: suggestion-phrase normalisation (C6, C10) -/

theorem mem_dedupTruthy {c : String} :
    ∀ (xs seen : List String), c ∈ dedupTruthy seen xs → c ∈ xs := by
  intro xs
  induction xs with
  | nil => intro seen h; simp [dedupTruthy] at h
  | cons x rest ih =>
    intro seen h
    by_cases hx : x ≠ "" ∧ x ∉ seen
    · rw [show dedupTruthy seen (x :: rest) = x :: dedupTruthy (x :: seen) rest from by
        simp only [dedupTruthy, if_pos hx]] at h
      rcases List.mem_cons.mp h with h | h
      · exact h ▸ List.mem_cons_self x rest
      · exact List.mem_cons_of_mem x (ih _ h)
    · rw [show dedupTruthy seen (x :: rest) = dedupTruthy seen rest from by
        simp only [dedupTruthy, if_neg hx]] at h
      exact List.mem_cons_of_mem x (ih _ h)

/-- C6: suggestion-phrase normalisation lowercases, strips all
non-alphanumeric/non-space characters, collapses internal whitespace, and
emits the concatenated and underscore-joined forms, each only when its
length reaches `MIN_HASHTAG_LEN`; `"Raah Skeleton!"` yields exactly its two
forms, and an input that normalises below the minimum length yields no
candidates.  Every emitted candidate has length `≥ MIN_HASHTAG_LEN`. -/
theorem claim_C6 :
    suggest_phrase_to_hashtag_candidates (r"Raah Skeleton!") =
      [r"raahskeleton", r"raah_skeleton"]
  ∧ suggest_phrase_to_hashtag_candidates (r"hi") = []
  ∧ (∀ p c, c ∈ suggest_phrase_to_hashtag_candidates p →
      MIN_HASHTAG_LEN ≤ c.length) := by
  refine ⟨by decide, by decide, ?_⟩
  intro p c hc
  simp only [suggest_phrase_to_hashtag_candidates] at hc
  split at hc
  · simp at hc
  · split at hc
    · simp at hc
    · have hc2 := mem_dedupTruthy _ _ hc
      rcases List.mem_append.mp hc2 with h | h <;> split at h <;>
        simp_all

theorem claim_C6_witness :
    (r"raahskeleton") ∈ suggest_phrase_to_hashtag_candidates (r"Raah Skeleton!")
  ∧ MIN_HASHTAG_LEN ≤ (r"raahskeleton" : String).length :=
  ⟨by decide, claim_C6.2.2 (r"Raah Skeleton!") (r"raahskeleton") (by decide)⟩

theorem dedupTruthy_nodup : ∀ (xs seen : List String),
    (dedupTruthy seen xs).Nodup ∧ ∀ c ∈ dedupTruthy seen xs, c ∉ seen := by
  intro xs
  induction xs with
  | nil => intro seen; simp [dedupTruthy]
  | cons x rest ih =>
    intro seen
    by_cases hx : x ≠ "" ∧ x ∉ seen
    · rw [show dedupTruthy seen (x :: rest) = x :: dedupTruthy (x :: seen) rest from by
        simp only [dedupTruthy, if_pos hx]]
      obtain ⟨ihn, ihm⟩ := ih (x :: seen)
      constructor
      · refine List.nodup_cons.mpr ⟨?_, ihn⟩
        intro hmem
        exact (ihm x hmem) (List.mem_cons_self x seen)
      · intro c hc
        rcases List.mem_cons.mp hc with h | h
        · exact h ▸ hx.2
        · exact fun hs => (ihm c h) (List.mem_cons_of_mem x hs)
    · rw [show dedupTruthy seen (x :: rest) = dedupTruthy seen rest from by
        simp only [dedupTruthy, if_neg hx]]
      exact ih seen

theorem dedupTruthy_pair (s : String) : (dedupTruthy [] [s, s]).length ≤ 1 := by
  by_cases hs : s = ""
  · subst hs; simp [dedupTruthy]
  · simp [dedupTruthy, hs]

/-- C10: the candidate list returned by suggestion-phrase normalisation never
contains duplicates; for a phrase that normalises to a single word the
concatenated and underscore-joined forms coincide, so at most one candidate
is returned — e.g. `"hello!"` yields `["hello"]`, not the same string
twice. -/
theorem claim_C10 :
    (∀ p, (suggest_phrase_to_hashtag_candidates p).Nodup)
  ∧ (∀ p, (suggestWordsOf (pyLower (pyStrip p))).length ≤ 1 →
      (suggest_phrase_to_hashtag_candidates p).length ≤ 1)
  ∧ suggest_phrase_to_hashtag_candidates (r"hello!") = [r"hello"] := by
  refine ⟨?_, ?_, by decide⟩
  · intro p
    simp only [suggest_phrase_to_hashtag_candidates]
    split
    · simp
    · split
      · simp
      · exact (dedupTruthy_nodup _ _).1
  · intro p hlen
    by_cases hp : pyLower (pyStrip p) = ""
    · simp [suggest_phrase_to_hashtag_candidates, hp]
    · rcases hws : suggestWordsOf (pyLower (pyStrip p)) with _ | ⟨w, ws⟩
      · simp [suggest_phrase_to_hashtag_candidates, hp, hws]
      · rw [hws] at hlen
        have hws0 : ws = [] := by
          rw [List.length_cons] at hlen
          exact List.length_eq_zero.mp (by omega)
        subst hws0
        have key : suggest_phrase_to_hashtag_candidates p =
            dedupTruthy [] ((if MIN_HASHTAG_LEN ≤ w.length
                then [String.mk w] else []) ++
              (if MIN_HASHTAG_LEN ≤ w.length
                then [String.mk w] else [])) := by
          simp only [suggest_phrase_to_hashtag_candidates, if_neg hp, hws, joinWith,
            String.length]
        rw [key]
        by_cases hc : MIN_HASHTAG_LEN ≤ w.length
        · simp only [if_pos hc, List.singleton_append]
          exact dedupTruthy_pair (String.mk w)
        · simp [if_neg hc, dedupTruthy]

theorem claim_C10_witness :
    (suggestWordsOf (pyLower (pyStrip (r"hello!")))).length ≤ 1
  ∧ (suggest_phrase_to_hashtag_candidates (r"hello!")).length ≤ 1 :=
  ⟨by decide, claim_C10.2.1 (r"hello!") (by decide)⟩

/-! ## Theorems: seed-list append with case-insensitive dedup (C7) -/

theorem wladGo_fresh : ∀ (items ex : List String), ∀ x ∈ wladGo ex items,
    pyLower x ∉ ex := by
  intro items
  induction items with
  | nil => intro ex x hx; simp [wladGo] at hx
  | cons a rest ih =>
    intro ex x hx
    by_cases h1 : pyStrip a = ""
    · rw [show wladGo ex (a :: rest) = wladGo ex rest from by
        simp only [wladGo, if_pos h1]] at hx
      exact ih ex x hx
    · by_cases h2 : pyLower (pyStrip a) ∈ ex
      · rw [show wladGo ex (a :: rest) = wladGo ex rest from by
          simp only [wladGo, if_neg h1, if_pos h2]] at hx
        exact ih ex x hx
      · rw [show wladGo ex (a :: rest) =
            pyStrip a :: wladGo (pyLower (pyStrip a) :: ex) rest from by
          simp only [wladGo, if_neg h1, if_neg h2]] at hx
        rcases List.mem_cons.mp hx with h | h
        · exact h ▸ h2
        · intro hmem
          exact (ih _ x h) (List.mem_cons_of_mem _ hmem)

/-- C7: appending candidates to a seed list dedups case-insensitively
against the entries already present (appending `"FooBar"` onto a list
already holding `"foobar"` appends nothing and reports 0), the reported
count is exactly the number of newly appended lines, and existing lines are
never rewritten or removed (the old file is a prefix of the new one). -/
theorem claim_C7 :
    (∀ file new_items,
      (write_lines_append_dedup file new_items).1.take file.length = file
    ∧ (write_lines_append_dedup file new_items).1.length =
        file.length + (write_lines_append_dedup file new_items).2
    ∧ (∀ x ∈ (write_lines_append_dedup file new_items).1.drop file.length,
        pyLower x ∉ (read_lines file).map (fun y => pyLower (pyStrip y))))
  ∧ write_lines_append_dedup [r"foobar"] [r"FooBar"] = ([r"foobar"], 0) := by
  refine ⟨?_, by decide⟩
  intro file new_items
  refine ⟨?_, ?_, ?_⟩
  · simp [write_lines_append_dedup, List.take_left]
  · simp [write_lines_append_dedup]
  · intro x hx
    simp only [write_lines_append_dedup] at hx
    rw [List.drop_left] at hx
    exact wladGo_fresh _ _ x hx

theorem claim_C7_witness :
    (r"b") ∈ (write_lines_append_dedup [r"a"] [r"b"]).1.drop
      ([r"a"] : List String).length
  ∧ pyLower (r"b") ∉ (read_lines [r"a"]).map (fun y => pyLower (pyStrip y)) :=
  ⟨by decide, (claim_C7.1 [r"a"] [r"b"]).2.2 (r"b") (by decide)⟩

/-! ## Theorems: score_base formula and ratio safety (C1) -/

/-- The view-normalised ratio as the claim defines it, amended at
non-positive views: `n / v` when both operands are numeric and the views
value is strictly positive, and `0` whenever the views value is `≤ 0` or
either operand is non-numeric. -/
def ratioSpec (n v : Scalar) : Rat :=
  match pyFloat v with
  | some b =>
    if 0 < b then
      match pyFloat n with
      | some a => a / b
      | Option.none => 0
    else 0
  | Option.none => 0

/-- The view-normalised ratio exactly as the original claim states it:
`0` whenever views is `0` or either operand is non-numeric, `n / v`
otherwise (including negative views). -/
def ratioSpecOrig (n v : Scalar) : Rat :=
  match pyFloat n, pyFloat v with
  | some a, some b => if b = 0 then 0 else a / b
  | _, _ => 0

theorem pyFloat_falsy {v : Scalar} (h : pyTruthy v = false) :
    pyFloat v = Option.none ∨ pyFloat v = some 0 := by
  cases v with
  | none => exact Or.inl rfl
  | int n =>
    have hn : n = 0 := by simpa [pyTruthy] using h
    subst hn
    right
    simp [pyFloat]
  | str s =>
    have hs : s = "" := by simpa [pyTruthy] using h
    subst hs
    exact Or.inl (by decide)

theorem safe_ratio_agrees (n v : Scalar) : safe_ratio n v = ratioSpec n v := by
  have hint0 : pyFloat (Scalar.int 0) = some 0 := by simp [pyFloat]
  by_cases hn : pyTruthy n
  · by_cases hv : pyTruthy v
    · simp only [safe_ratio, ratioSpec, hn, hv, if_true]
      cases hfn : pyFloat n <;> cases hfv : pyFloat v <;> simp
    · have hv' : pyTruthy v = false := by simpa using hv
      simp only [safe_ratio, ratioSpec, hn, hv', Bool.false_eq_true, if_true, if_false,
        hint0]
      rcases pyFloat_falsy hv' with hf | hf <;> rw [hf] <;>
        cases hfn : pyFloat n <;> simp
  · have hn' : pyTruthy n = false := by simpa using hn
    by_cases hv : pyTruthy v
    · simp only [safe_ratio, ratioSpec, hn', hv, Bool.false_eq_true, if_true, if_false,
        hint0]
      rcases pyFloat_falsy hn' with hf | hf <;> rw [hf] <;>
        cases hfv : pyFloat v <;> simp
    · have hv' : pyTruthy v = false := by simpa using hv
      simp only [safe_ratio, ratioSpec, hn', hv', Bool.false_eq_true, if_false, hint0]
      rcases pyFloat_falsy hv' with hf | hf <;> rw [hf] <;>
        rcases pyFloat_falsy hn' with hf2 | hf2 <;> rw [hf2] <;> simp

/-- C1 (amended): the extracted record's `score_base` equals
`4·(shares/views) + 3·(comments/views) + 1·(likes/views)
 + 2·[suggest words non-empty] + 1·[music id present]`, where each
view-normalised ratio is `0` whenever the views value is non-positive
(`≤ 0`, not only `= 0`) or either operand is non-numeric; in particular the
formula is total — extraction never raises a division error, even when
views is `0`. -/
theorem claim_C1_amended (data : RawPayload) (src : String) :
    (extract_video data src).score_base =
      4 * ratioSpec (extract_video data src).statsShares
        (extract_video data src).statsViews
    + 3 * ratioSpec (extract_video data src).statsComments
        (extract_video data src).statsViews
    + 1 * ratioSpec (extract_video data src).statsLikes
        (extract_video data src).statsViews
    + (if (extract_video data src).suggest_words ≠ [] then 2 else 0)
    + (if pyTruthy (extract_video data src).musicId then 1 else 0) := by
  have hsb : (extract_video data src).score_base =
      safe_ratio (pyOr data.statsShareCount (Scalar.int 0))
        (pyOr data.statsPlayCount (pyOr data.statsViewCount (Scalar.int 0))) * 4 +
      safe_ratio (pyOr data.statsCommentCount (Scalar.int 0))
        (pyOr data.statsPlayCount (pyOr data.statsViewCount (Scalar.int 0))) * 3 +
      safe_ratio (pyOr data.statsDiggCount (pyOr data.statsLikeCount (Scalar.int 0)))
        (pyOr data.statsPlayCount (pyOr data.statsViewCount (Scalar.int 0))) * 1 +
      (if extract_suggest_words data ≠ [] then 2 else 0) +
      (if pyTruthy data.musicId then 1 else 0) := rfl
  have h1 : (extract_video data src).statsShares =
      pyOr data.statsShareCount (Scalar.int 0) := rfl
  have h2 : (extract_video data src).statsComments =
      pyOr data.statsCommentCount (Scalar.int 0) := rfl
  have h3 : (extract_video data src).statsLikes =
      pyOr data.statsDiggCount (pyOr data.statsLikeCount (Scalar.int 0)) := rfl
  have h4 : (extract_video data src).statsViews =
      pyOr data.statsPlayCount (pyOr data.statsViewCount (Scalar.int 0)) := rfl
  have h5 : (extract_video data src).suggest_words = extract_suggest_words data := rfl
  have h6 : (extract_video data src).musicId = data.musicId := rfl
  rw [hsb, h1, h2, h3, h4, h5, h6]
  simp only [safe_ratio_agrees]
  ring

/-- A payload with a negative play count and one share. -/
def cexPayloadC1 : RawPayload :=
  { statsPlayCount := Scalar.int (-1), statsShareCount := Scalar.int 1 }

theorem claim_C1_counterexample :
    (extract_video cexPayloadC1 (r"trending")).score_base ≠
      4 * ratioSpecOrig (extract_video cexPayloadC1 (r"trending")).statsShares
        (extract_video cexPayloadC1 (r"trending")).statsViews
    + 3 * ratioSpecOrig (extract_video cexPayloadC1 (r"trending")).statsComments
        (extract_video cexPayloadC1 (r"trending")).statsViews
    + 1 * ratioSpecOrig (extract_video cexPayloadC1 (r"trending")).statsLikes
        (extract_video cexPayloadC1 (r"trending")).statsViews
    + (if (extract_video cexPayloadC1 (r"trending")).suggest_words ≠ [] then 2 else 0)
    + (if pyTruthy (extract_video cexPayloadC1 (r"trending")).musicId then 1
       else 0) := by
  have e1 : (extract_video cexPayloadC1 (r"trending")).score_base = 0 := by
    have h : (extract_video cexPayloadC1 (r"trending")).score_base =
        safe_ratio (Scalar.int 1) (Scalar.int (-1)) * 4 +
        safe_ratio (Scalar.int 0) (Scalar.int (-1)) * 3 +
        safe_ratio (Scalar.int 0) (Scalar.int (-1)) * 1 + 0 + 0 := rfl
    rw [h, show safe_ratio (Scalar.int 1) (Scalar.int (-1)) = 0 from by decide,
      show safe_ratio (Scalar.int 0) (Scalar.int (-1)) = 0 from by decide]
    norm_num
  have p1 : (extract_video cexPayloadC1 (r"trending")).statsShares = Scalar.int 1 := rfl
  have p2 : (extract_video cexPayloadC1 (r"trending")).statsViews =
      Scalar.int (-1) := rfl
  have p3 : (extract_video cexPayloadC1 (r"trending")).statsComments =
      Scalar.int 0 := rfl
  have p4 : (extract_video cexPayloadC1 (r"trending")).statsLikes = Scalar.int 0 := rfl
  have p5 : (extract_video cexPayloadC1 (r"trending")).suggest_words = [] := rfl
  have p6 : (extract_video cexPayloadC1 (r"trending")).musicId = Scalar.none := rfl
  have e2 : ratioSpecOrig (Scalar.int 1) (Scalar.int (-1)) = -1 := by
    simp [ratioSpecOrig, pyFloat]
  have e3 : ratioSpecOrig (Scalar.int 0) (Scalar.int (-1)) = 0 := by
    simp [ratioSpecOrig, pyFloat]
  rw [e1, p1, p2, p3, p4, p5, p6, e2, e3]
  norm_num [pyTruthy]

/-! ## Theorems: extracted stats fields (C5) -/

/-- A raw stat value that is an integer or a missing key. -/
def intOrNone : Scalar → Bool
  | .str _ => false
  | _ => true

/-- The extracted stat value is an integer. -/
def scalarIsInt : Scalar → Bool
  | .int _ => true
  | _ => false

theorem pyOr_int1 (b : Scalar) (hb : intOrNone b = true) :
    scalarIsInt (pyOr b (Scalar.int 0)) = true := by
  cases b with
  | none => rfl
  | int m =>
    simp only [pyOr]
    split <;> rfl
  | str s => simp [intOrNone] at hb

theorem pyOr_int2 (a b : Scalar) (ha : intOrNone a = true) (hb : intOrNone b = true) :
    scalarIsInt (pyOr a (pyOr b (Scalar.int 0))) = true := by
  cases a with
  | none => simpa [pyOr, pyTruthy] using pyOr_int1 b hb
  | int n =>
    simp only [pyOr]
    split
    · rfl
    · exact pyOr_int1 b hb
  | str s => simp [intOrNone] at ha

/-- C5 (amended): whenever each raw stats field is an integer or missing,
the extracted `views`, `likes`, `comments` and `shares` are integers
(the extractor performs no numeric coercion, so a string-valued raw stat is
stored as-is — see the counterexample); unconditionally, each stat is `0`
when every corresponding raw field, including its alternate fallback name,
is missing. -/
theorem claim_C5_amended :
    (∀ data src,
      intOrNone data.statsPlayCount = true → intOrNone data.statsViewCount = true →
      intOrNone data.statsDiggCount = true → intOrNone data.statsLikeCount = true →
      intOrNone data.statsCommentCount = true → intOrNone data.statsShareCount = true →
        scalarIsInt (extract_video data src).statsViews = true
      ∧ scalarIsInt (extract_video data src).statsLikes = true
      ∧ scalarIsInt (extract_video data src).statsComments = true
      ∧ scalarIsInt (extract_video data src).statsShares = true)
  ∧ (∀ data src, data.statsPlayCount = Scalar.none → data.statsViewCount = Scalar.none →
      (extract_video data src).statsViews = Scalar.int 0)
  ∧ (∀ data src, data.statsDiggCount = Scalar.none → data.statsLikeCount = Scalar.none →
      (extract_video data src).statsLikes = Scalar.int 0)
  ∧ (∀ data src, data.statsCommentCount = Scalar.none →
      (extract_video data src).statsComments = Scalar.int 0)
  ∧ (∀ data src, data.statsShareCount = Scalar.none →
      (extract_video data src).statsShares = Scalar.int 0) := by
  refine ⟨?_, ?_, ?_, ?_, ?_⟩
  · intro data src hp hv hd hl hc hs
    refine ⟨?_, ?_, ?_, ?_⟩
    · exact pyOr_int2 _ _ hp hv
    · exact pyOr_int2 _ _ hd hl
    · exact pyOr_int1 _ hc
    · exact pyOr_int1 _ hs
  · intro data src hp hv
    have h : (extract_video data src).statsViews =
        pyOr data.statsPlayCount (pyOr data.statsViewCount (Scalar.int 0)) := rfl
    rw [h, hp, hv]
    rfl
  · intro data src hd hl
    have h : (extract_video data src).statsLikes =
        pyOr data.statsDiggCount (pyOr data.statsLikeCount (Scalar.int 0)) := rfl
    rw [h, hd, hl]
    rfl
  · intro data src hc
    have h : (extract_video data src).statsComments =
        pyOr data.statsCommentCount (Scalar.int 0) := rfl
    rw [h, hc]
    rfl
  · intro data src hs
    have h : (extract_video data src).statsShares =
        pyOr data.statsShareCount (Scalar.int 0) := rfl
    rw [h, hs]
    rfl

/-- A payload with a string-valued play count. -/
def cexPayloadC5 : RawPayload := { statsPlayCount := Scalar.str (r"many") }

theorem claim_C5_counterexample :
    scalarIsInt (extract_video cexPayloadC5 (r"trending")).statsViews = false := by
  decide

/-- A payload with an integer play count. -/
def payloadC5W : RawPayload := { statsPlayCount := Scalar.int 7 }

theorem claim_C5_witness :
    (intOrNone payloadC5W.statsPlayCount = true
   ∧ intOrNone payloadC5W.statsViewCount = true
   ∧ intOrNone payloadC5W.statsDiggCount = true
   ∧ intOrNone payloadC5W.statsLikeCount = true
   ∧ intOrNone payloadC5W.statsCommentCount = true
   ∧ intOrNone payloadC5W.statsShareCount = true)
  ∧ scalarIsInt (extract_video payloadC5W (r"trending")).statsViews = true :=
  ⟨by decide,
    (claim_C5_amended.1 payloadC5W (r"trending") (by decide) (by decide) (by decide)
      (by decide) (by decide) (by decide)).1⟩

/-! ## Association-list (dict) lemmas -/

theorem updFst {κ α : Type} [BEq κ] (k : κ) (f : α → α) (q : κ × α) :
    ((if q.1 == k then (q.1, f q.2) else q).1) = q.1 := by
  split <;> rfl

theorem updAssoc_comp_pred {κ α : Type} [BEq κ] (k k' : κ) (f : α → α) :
    ((fun q : κ × α => q.1 == k') ∘
      (fun q : κ × α => if q.1 == k then (q.1, f q.2) else q))
      = fun q : κ × α => q.1 == k' := by
  funext q
  simp only [Function.comp]
  rw [updFst]

theorem lookupA_updAssoc_self {κ α : Type} [BEq κ] [LawfulBEq κ]
    (tbl : List (κ × α)) (k : κ) (f : α → α) (d : α) :
    lookupA (updAssoc tbl k f d) k = some ((lookupA tbl k).elim d f) := by
  unfold updAssoc lookupA
  cases h : tbl.find? (fun p => p.1 == k) with
  | none =>
    rw [List.find?_append, h]
    simp [List.find?]
  | some p =>
    rw [List.find?_map, updAssoc_comp_pred, h]
    have hk := List.find?_some h
    simp [hk]

theorem lookupA_updAssoc_ne {κ α : Type} [BEq κ] [LawfulBEq κ]
    (tbl : List (κ × α)) (k k' : κ) (f : α → α) (d : α) (hne : k' ≠ k) :
    lookupA (updAssoc tbl k f d) k' = lookupA tbl k' := by
  unfold updAssoc lookupA
  cases h : tbl.find? (fun p => p.1 == k) with
  | none =>
    rw [List.find?_append]
    have hkd : (((k, d) : κ × α).1 == k') = false := by
      simp only []
      exact beq_eq_false_iff_ne.mpr (Ne.symm hne)
    simp [List.find?, hkd]
  | some p =>
    rw [List.find?_map, updAssoc_comp_pred]
    cases h' : tbl.find? (fun q => q.1 == k') with
    | none => simp
    | some q =>
      have hq : q.1 = k' := by
        have := List.find?_some h'
        exact eq_of_beq this
      have hqk : (q.1 == k) = false := by
        rw [hq]
        exact beq_eq_false_iff_ne.mpr hne
      simp [hqk]

theorem keys_updAssoc {κ α : Type} [BEq κ] [LawfulBEq κ]
    (tbl : List (κ × α)) (k : κ) (f : α → α) (d : α) :
    ((updAssoc tbl k f d).map (fun p => p.1) = tbl.map (fun p => p.1)
      ∧ k ∈ tbl.map (fun p => p.1))
  ∨ ((updAssoc tbl k f d).map (fun p => p.1) = tbl.map (fun p => p.1) ++ [k]
      ∧ k ∉ tbl.map (fun p => p.1)) := by
  unfold updAssoc
  cases h : tbl.find? (fun p => p.1 == k) with
  | some p =>
    left
    constructor
    · rw [List.map_map]
      exact List.map_congr_left fun q _ => updFst k f q
    · have hp : p ∈ tbl := List.mem_of_find?_eq_some h
      have hbeq := List.find?_some h
      have hk : p.1 = k := eq_of_beq hbeq
      exact hk ▸ List.mem_map.mpr ⟨p, hp, rfl⟩
  | none =>
    right
    constructor
    · simp
    · intro hk
      rcases List.mem_map.mp hk with ⟨p, hp, hpk⟩
      have := List.find?_eq_none.mp h p hp
      simp [hpk] at this

theorem mem_keys_updAssoc {κ α : Type} [BEq κ] [LawfulBEq κ]
    (tbl : List (κ × α)) (k : κ) (f : α → α) (d : α) (v : κ) :
    v ∈ (updAssoc tbl k f d).map (fun p => p.1) ↔
      v ∈ tbl.map (fun p => p.1) ∨ v = k := by
  rcases keys_updAssoc tbl k f d with ⟨h1, h2⟩ | ⟨h1, _⟩
  · rw [h1]
    constructor
    · exact Or.inl
    · rintro (hv | rfl)
      · exact hv
      · exact h2
  · rw [h1]
    simp [List.mem_append]

theorem nodup_keys_updAssoc {κ α : Type} [BEq κ] [LawfulBEq κ]
    (tbl : List (κ × α)) (k : κ) (f : α → α) (d : α)
    (h : (tbl.map (fun p => p.1)).Nodup) :
    ((updAssoc tbl k f d).map (fun p => p.1)).Nodup := by
  rcases keys_updAssoc tbl k f d with ⟨h1, _⟩ | ⟨h1, hk⟩
  · rw [h1]; exact h
  · rw [h1]
    simp [List.nodup_append, h, hk]

theorem mem_updAssoc {κ α : Type} [BEq κ] [LawfulBEq κ]
    {tbl : List (κ × α)} {k : κ} {f : α → α} {d : α} {p : κ × α}
    (hp : p ∈ updAssoc tbl k f d) :
    p ∈ tbl ∨ (∃ q ∈ tbl, p = (q.1, f q.2)) ∨ p = (k, d) := by
  unfold updAssoc at hp
  cases h : tbl.find? (fun q => q.1 == k) with
  | some q0 =>
    rw [h] at hp
    rcases List.mem_map.mp hp with ⟨q, hq, hqe⟩
    by_cases hqk : (q.1 == k) = true
    · right; left
      exact ⟨q, hq, by rw [← hqe]; simp [hqk]⟩
    · left
      rw [← hqe, if_neg hqk]
      exact hq
  | none =>
    rw [h] at hp
    rcases List.mem_append.mp hp with h1 | h1
    · exact Or.inl h1
    · right; right
      simpa using h1

/-! ## Counter-dict lemmas and the pool-level scoring spec (C2) -/

theorem lookupD_bumpCount_self {κ : Type} [BEq κ] [LawfulBEq κ]
    (t : List (κ × Nat)) (k : κ) :
    lookupD (bumpCount t k) k = lookupD t k + 1 := by
  unfold lookupD bumpCount
  rw [lookupA_updAssoc_self]
  cases lookupA t k <;> simp [Option.elim]

theorem lookupD_bumpCount_ne {κ : Type} [BEq κ] [LawfulBEq κ]
    (t : List (κ × Nat)) (k k' : κ) (hne : k' ≠ k) :
    lookupD (bumpCount t k) k' = lookupD t k' := by
  unfold lookupD bumpCount
  rw [lookupA_updAssoc_ne _ _ _ _ _ hne]

theorem lookupD_bumpFold {κ : Type} [BEq κ] [LawfulBEq κ] (xs : List κ) :
    ∀ (t : List (κ × Nat)) (k : κ),
      lookupD (xs.foldl bumpCount t) k = lookupD t k + xs.count k := by
  induction xs with
  | nil => intro t k; simp
  | cons x rest ih =>
    intro t k
    rw [List.foldl_cons, ih]
    by_cases hxk : x = k
    · subst hxk
      rw [lookupD_bumpCount_self, List.count_cons_self]
      omega
    · rw [lookupD_bumpCount_ne _ _ _ (Ne.symm hxk), List.count_cons_of_ne]
      exact fun he => hxk (eq_of_beq (by simp [he]))

theorem foldl_bump_flatMap {κ β : Type} [BEq κ] (g : β → List κ) (rows : List β) :
    ∀ t : List (κ × Nat),
      rows.foldl (fun t r => (g r).foldl bumpCount t) t
        = (rows.flatMap g).foldl bumpCount t := by
  induction rows with
  | nil => intro t; simp
  | cons r rest ih =>
    intro t
    rw [List.foldl_cons, List.flatMap_cons, List.foldl_append, ih]

theorem foldl_bump_guard {κ β : Type} [BEq κ] (c : β → Bool) (g : β → κ)
    (rows : List β) :
    ∀ t : List (κ × Nat),
      rows.foldl (fun t r => if c r then bumpCount t (g r) else t) t
        = (rows.filterMap (fun r => if c r then some (g r) else Option.none)).foldl
            bumpCount t := by
  induction rows with
  | nil => intro t; simp
  | cons r rest ih =>
    intro t
    rw [List.foldl_cons, List.filterMap_cons]
    by_cases hc : c r
    · simp only [hc, if_true, List.foldl_cons]
      exact ih _
    · simp only [hc, Bool.false_eq_true, if_false]
      exact ih _

theorem foldl_countP {κ : Type} (p : κ → Prop) [DecidablePred p] (xs : List κ) :
    ∀ i : Nat, xs.foldl (fun n h => if p h then n + 1 else n) i
      = i + xs.countP (fun h => decide (p h)) := by
  induction xs with
  | nil => intro i; simp
  | cons x rest ih =>
    intro i
    rw [List.foldl_cons, List.countP_cons]
    by_cases hx : p x <;> simp [hx, ih, Nat.add_assoc, Nat.add_comm]

/-- Corpus-wide number of occurrences of hashtag `h`
(one per occurrence in a record's `hashtags`). -/
def specHashtagUses (rows : List Record) (h : String) : Nat :=
  (rows.flatMap (fun x => x.hashtags)).count h

/-- Corpus-wide number of records citing sound id `sid`. -/
def specSoundUses (rows : List Record) (sid : Scalar) : Nat :=
  (rows.filterMap
    (fun x => if pyTruthy x.musicId then some x.musicId else Option.none)).count sid

/-- The pool-level score as the (amended) claim states it: `score_base`, plus
`0.5` per hashtag of the record with corpus frequency `≤ 2` capped at `3.0`,
plus a flat `1.0` if the record's sound id is truthy and has corpus
frequency `≤ 2`, plus a flat `1.0` if the record's lowercased author handle
is non-empty and is literally in the supplied privileged-accounts set —
all rounded to 4 decimal places. -/
def specScore (rows : List Record) (accts : List String) (r : Record) : Rat :=
  round4 (r.score_base
    + min 3 ((r.hashtags.countP
        (fun h => decide (specHashtagUses rows h ≤ 2)) : Rat) * (1 / 2))
    + (if pyTruthy r.musicId ∧ specSoundUses rows r.musicId ≤ 2 then 1 else 0)
    + (if pyLower (r.authorUniqueId.getD "") ≠ ""
          ∧ pyLower (r.authorUniqueId.getD "") ∈ accts then 1 else 0))

/-- The pool-level score exactly as the original claim states it: as
`specScore` but with the privileged-accounts bonus granted whenever the
author handle matches a supplied account case-insensitively. -/
def specScoreOrig (rows : List Record) (accts : List String) (r : Record) : Rat :=
  round4 (r.score_base
    + min 3 ((r.hashtags.countP
        (fun h => decide (specHashtagUses rows h ≤ 2)) : Rat) * (1 / 2))
    + (if pyTruthy r.musicId ∧ specSoundUses rows r.musicId ≤ 2 then 1 else 0)
    + (if accts.any (fun a => pyLower a == pyLower (r.authorUniqueId.getD ""))
        then 1 else 0))

theorem lookupD_hashtagFreq (rows : List Record) (h : String) :
    lookupD (hashtagFreq rows) h = specHashtagUses rows h := by
  unfold hashtagFreq specHashtagUses
  rw [foldl_bump_flatMap, lookupD_bumpFold]
  simp [lookupD, lookupA]

theorem lookupD_soundFreq (rows : List Record) (sid : Scalar) :
    lookupD (soundFreq rows) sid = specSoundUses rows sid := by
  unfold soundFreq specSoundUses
  rw [foldl_bump_guard, lookupD_bumpFold]
  simp [lookupD, lookupA]

theorem poolScore_eq (rows : List Record) (accts : List String) (r : Record) :
    poolScore (hashtagFreq rows) (soundFreq rows) accts r
      = specScore rows accts r := by
  simp only [poolScore, specScore]
  rw [foldl_countP (fun h => lookupD (hashtagFreq rows) h ≤ 2) r.hashtags 0]
  simp only [lookupD_hashtagFreq, lookupD_soundFreq, Nat.zero_add]
  by_cases h1 : pyTruthy r.musicId ∧ specSoundUses rows r.musicId ≤ 2 <;>
    by_cases h2 : pyLower (r.authorUniqueId.getD "") ≠ ""
        ∧ pyLower (r.authorUniqueId.getD "") ∈ accts <;>
    simp [h1, h2]

/-- C2 (amended): over every merged corpus, the pool-level scorer sets
`score = round(score_base + bonuses, 4)` where the bonuses are 0.5 per
hashtag of the record whose corpus frequency is ≤ 2 capped at 3.0 in total,
a flat 1.0 if the record's sound id has corpus frequency ≤ 2, and a flat
1.0 if the record's lowercased author handle is non-empty and occurs
literally in the supplied privileged-accounts set (the scorer lowercases
only the record's handle, not the supplied entries — see the
counterexample). -/
theorem claim_C2_amended (rows : List Record) (big_accounts : List String) :
    add_pool_level_scores rows big_accounts =
      rows.map (fun r => { r with score := some (specScore rows big_accounts r) }) := by
  unfold add_pool_level_scores
  exact List.map_congr_left fun r _ => by rw [poolScore_eq]

/-- A record with every field empty, to be overridden per test. -/
def blankRecord : Record :=
  { id := Scalar.none, url := Option.none, source := Option.none
    sources := Option.none, desc := Scalar.none, createTime := Scalar.none
    authorUniqueId := Option.none, authorNickname := Scalar.none
    authorVerified := Scalar.none, statsViews := Scalar.none
    statsLikes := Scalar.none, statsComments := Scalar.none
    statsShares := Scalar.none, hashtags := [], suggest_words := []
    musicId := Scalar.none, musicTitle := Scalar.none
    musicAuthorName := Scalar.none, musicOriginal := Scalar.none
    raw := Option.none, cover_url := Option.none
    author_avatar_url := Option.none, score_base := 0, score := Option.none }

/-- A record whose author handle matches a privileged account only up to
case. -/
def cexRecC2 : Record := { blankRecord with authorUniqueId := some (r"abc") }

theorem claim_C2_counterexample :
    (add_pool_level_scores [cexRecC2] [r"ABC"]).map (fun x => x.score) ≠
      [some (specScoreOrig [cexRecC2] [r"ABC"] cexRecC2)] := by
  have hlow : pyLower ((cexRecC2.authorUniqueId).getD "") = r"abc" := by decide
  have hmem : (r"abc" : String) ∉ ([r"ABC"] : List String) := by decide
  have hany : ([r"ABC"] : List String).any
      (fun a => pyLower a == pyLower ((cexRecC2.authorUniqueId).getD "")) = true := by
    decide
  have h1 : (add_pool_level_scores [cexRecC2] [r"ABC"]).map (fun x => x.score)
      = [some (round4 0)] := by
    rw [claim_C2_amended]
    simp only [List.map_cons, List.map_nil]
    congr 2
    unfold specScore
    rw [hlow]
    have hn : ¬ ((r"abc" : String) ≠ "" ∧ (r"abc" : String) ∈ ([r"ABC"] : List String)) := by
      intro hc
      exact hmem hc.2
    rw [if_neg hn]
    simp [cexRecC2, blankRecord, pyTruthy]
  have h2 : specScoreOrig [cexRecC2] [r"ABC"] cexRecC2 = round4 1 := by
    unfold specScoreOrig
    rw [hany]
    simp [cexRecC2, blankRecord, pyTruthy]
  have h3 : round4 0 = 0 := by
    unfold round4
    norm_num
  have h4 : round4 1 = 1 := by
    unfold round4
    norm_num [round_eq]
  rw [h1, h2, h3, h4]
  simp

/-! ## Theorems: trending collection termination (C8) -/

theorem trendingGo_len (source : Nat → List (Option RawPayload)) (target : Nat) :
    ∀ rows seen stall k pulls,
      ((trendingGo source target rows seen stall k pulls).1).length ≤ target := by
  intro rows seen stall k pulls
  induction rows, seen, stall, k, pulls using trendingGo.induct source target with
  | case1 rows seen stall k pulls hlt pr hnew hstall =>
    have hnew2 : (processBatch seen (source k)).2.isEmpty = true := hnew
    rw [trendingGo]
    simp only [dif_pos hlt, dif_pos hnew2, if_pos hstall]
    simp [List.length_take]
  | case2 rows seen stall k pulls hlt pr hnew hstall ih =>
    have hnew2 : (processBatch seen (source k)).2.isEmpty = true := hnew
    rw [trendingGo]
    simp only [dif_pos hlt, dif_pos hnew2, if_neg hstall]
    exact ih
  | case3 rows seen stall k pulls hlt pr hnew ih =>
    have hnew2 : ¬ (processBatch seen (source k)).2.isEmpty = true := hnew
    rw [trendingGo]
    simp only [dif_pos hlt, dif_neg hnew2]
    exact ih
  | case4 rows seen stall k pulls hlt =>
    rw [trendingGo]
    simp only [dif_neg hlt]
    simp [List.length_take]

theorem trendingGo_stalls (source : Nat → List (Option RawPayload))
    (hsrc : ∀ k, source k = []) (target : Nat) (ht : 0 < target) :
    ∀ m stall k pulls, stall + m = 5 →
      trendingGo source target [] [] stall k pulls = ([], pulls + (m + 1)) := by
  intro m
  induction m with
  | zero =>
    intro stall k pulls hm
    rw [trendingGo]
    have h0 : processBatch [] (source k) = ([], []) := by rw [hsrc]; rfl
    have hs : stall + 1 ≥ 6 := by omega
    simp [ht, h0, hs]
  | succ m ih =>
    intro stall k pulls hm
    rw [trendingGo]
    have h0 : processBatch [] (source k) = ([], []) := by rw [hsrc]; rfl
    have hs : ¬ (stall + 1 ≥ 6) := by omega
    simp only [List.length_nil, ht, dif_pos, h0, List.isEmpty_nil, dite_true, hs,
      if_false, List.append_nil]
    rw [ih (stall + 1) (k + 1) (pulls + 1) (by omega)]
    have : pulls + 1 + (m + 1) = pulls + (m + 1 + 1) := by omega
    rw [this]

/-- C8: trending collection terminates — the collection function is total
(accepted by Lean's termination checker for every source: a productive pull
decreases the distance to the target, an unproductive one decreases the
stall budget); the result never exceeds the target, and a source that keeps
contributing zero new items stops the run after exactly 6 consecutive
batch pulls with a result below target rather than looping forever. -/
theorem claim_C8 :
    (∀ source target, (collect_trending source target).length ≤ target)
  ∧ (∀ source target, (∀ k, source k = []) → 0 < target →
      collect_trending source target = [] ∧ trendingPulls source target = 6) := by
  constructor
  · intro source target
    exact trendingGo_len source target [] [] 0 0 0
  · intro source target hsrc ht
    have h := trendingGo_stalls source hsrc target ht 5 0 0 0 (by omega)
    constructor
    · unfold collect_trending
      rw [h]
    · unfold trendingPulls
      rw [h]

theorem claim_C8_witness :
    ((∀ k, (fun _ : Nat => ([] : List (Option RawPayload))) k = []) ∧ 0 < 300)
  ∧ (collect_trending (fun _ => []) 300 = []
      ∧ trendingPulls (fun _ => []) 300 = 6) :=
  ⟨⟨fun _ => rfl, by decide⟩,
    claim_C8.2 (fun _ => []) 300 (fun _ => rfl) (by decide)⟩

/-! ## Merger lemmas (C3, C4) -/

/-- The records of `rows` carrying id `v`, in order. -/
def withId (v : Scalar) (rows : List Record) : List Record :=
  rows.filter (fun r => r.id == v)

/-- Every field of a record that `mergeDup` leaves untouched: everything
except the provenance fields (`source`/`sources`) and the
thumbnail/avatar fields (`raw`/`cover_url`/`author_avatar_url`). -/
def frameOf (x : Record) :=
  (x.id, x.url, x.desc, x.createTime, x.authorUniqueId, x.authorNickname,
   x.authorVerified, x.statsViews, x.statsLikes, x.statsComments, x.statsShares,
   x.hashtags, x.suggest_words, x.musicId, x.musicTitle, x.musicAuthorName,
   x.musicOriginal, x.score_base, x.score)

theorem frameOf_mergeDup (e x : Record) : frameOf (mergeDup e x) = frameOf e := rfl

theorem frameOf_mergeFold : ∀ (rs : List Record) (e : Record),
    frameOf (rs.foldl mergeDup e) = frameOf e := by
  intro rs
  induction rs with
  | nil => intro e; rfl
  | cons x rest ih =>
    intro e
    rw [List.foldl_cons, ih, frameOf_mergeDup]

/-- The fill-once-never-overwrite behaviour for an optional URL field:
keep the current value once present; otherwise take the first truthy
(non-`None`, non-empty) later sighting. -/
def fillOpt (cur : Option String) (xs : List (Option String)) : Option String :=
  match cur with
  | some s => some s
  | Option.none =>
    match xs with
    | [] => Option.none
    | x :: rest => if (x.getD "") ≠ "" then x else fillOpt Option.none rest

/-- The fill-once-never-overwrite behaviour for the `raw` thumbs block:
keep the current value once the key is present; otherwise take the first
later sighting that has the key. -/
def fillRaw (cur : Option Thumbs) (xs : List (Option Thumbs)) : Option Thumbs :=
  match cur with
  | some t => some t
  | Option.none =>
    match xs with
    | [] => Option.none
    | x :: rest =>
      match x with
      | some t => some t
      | Option.none => fillRaw Option.none rest

theorem fillOpt_some (s : String) (xs : List (Option String)) :
    fillOpt (some s) xs = some s := by
  cases xs <;> rfl

theorem fillRaw_some (t : Thumbs) (xs : List (Option Thumbs)) :
    fillRaw (some t) xs = some t := by
  cases xs <;> rfl

theorem cover_mergeFold : ∀ (rs : List Record) (e : Record),
    (rs.foldl mergeDup e).cover_url = fillOpt e.cover_url (rs.map (fun x => x.cover_url)) := by
  intro rs
  induction rs with
  | nil =>
    intro e
    cases h : e.cover_url <;> simp [fillOpt, h]
  | cons x rest ih =>
    intro e
    rw [List.foldl_cons, ih, List.map_cons]
    cases hc : e.cover_url with
    | some s =>
      have h1 : (mergeDup e x).cover_url = some s := by simp [mergeDup, hc]
      rw [h1, fillOpt_some, fillOpt_some]
    | none =>
      have h1 : (mergeDup e x).cover_url =
          (if (x.cover_url.getD "") ≠ "" then x.cover_url else Option.none) := by
        by_cases hx : (x.cover_url.getD "") ≠ "" <;> simp [mergeDup, hc, hx]
      rw [h1]
      by_cases hx : (x.cover_url.getD "") ≠ ""
      · rw [if_pos hx]
        cases hxc : x.cover_url with
        | none => rw [hxc] at hx; simp at hx
        | some s2 =>
          have hs2 : s2 ≠ "" := by simpa [hxc] using hx
          simp [fillOpt, hxc, hs2]
      · rw [if_neg hx]
        simp only [fillOpt, hx, if_false]

theorem avatar_mergeFold : ∀ (rs : List Record) (e : Record),
    (rs.foldl mergeDup e).author_avatar_url =
      fillOpt e.author_avatar_url (rs.map (fun x => x.author_avatar_url)) := by
  intro rs
  induction rs with
  | nil =>
    intro e
    cases h : e.author_avatar_url <;> simp [fillOpt, h]
  | cons x rest ih =>
    intro e
    rw [List.foldl_cons, ih, List.map_cons]
    cases hc : e.author_avatar_url with
    | some s =>
      have h1 : (mergeDup e x).author_avatar_url = some s := by simp [mergeDup, hc]
      rw [h1, fillOpt_some, fillOpt_some]
    | none =>
      have h1 : (mergeDup e x).author_avatar_url =
          (if (x.author_avatar_url.getD "") ≠ "" then x.author_avatar_url
           else Option.none) := by
        by_cases hx : (x.author_avatar_url.getD "") ≠ "" <;> simp [mergeDup, hc, hx]
      rw [h1]
      by_cases hx : (x.author_avatar_url.getD "") ≠ ""
      · rw [if_pos hx]
        cases hxc : x.author_avatar_url with
        | none => rw [hxc] at hx; simp at hx
        | some s2 =>
          have hs2 : s2 ≠ "" := by simpa [hxc] using hx
          simp [fillOpt, hxc, hs2]
      · rw [if_neg hx]
        simp only [fillOpt, hx, if_false]

theorem raw_mergeFold : ∀ (rs : List Record) (e : Record),
    (rs.foldl mergeDup e).raw = fillRaw e.raw (rs.map (fun x => x.raw)) := by
  intro rs
  induction rs with
  | nil =>
    intro e
    cases h : e.raw <;> simp [fillRaw, h]
  | cons x rest ih =>
    intro e
    rw [List.foldl_cons, ih, List.map_cons]
    cases hc : e.raw with
    | some t =>
      have h1 : (mergeDup e x).raw = some t := by simp [mergeDup, hc]
      rw [h1, fillRaw_some, fillRaw_some]
    | none =>
      have h1 : (mergeDup e x).raw = x.raw := by simp [mergeDup, hc]
      rw [h1]
      cases hxc : x.raw with
      | none => simp [fillRaw]
      | some t2 => simp [fillRaw]

theorem mergeStep_truthy {acc : List (Scalar × Record)} {x : Record}
    (h : pyTruthy x.id = true) :
    mergeStep acc x = updAssoc acc x.id (fun e => mergeDup e x) x := by
  simp [mergeStep, h]

theorem mergeStep_falsy {acc : List (Scalar × Record)} {x : Record}
    (h : ¬ pyTruthy x.id = true) :
    mergeStep acc x = acc := by
  simp [mergeStep, h]

theorem withId_cons_self {v : Scalar} {x : Record} (rest : List Record)
    (h : x.id = v) :
    withId v (x :: rest) = x :: withId v rest := by
  simp [withId, List.filter_cons, h]

theorem withId_cons_ne {v : Scalar} {x : Record} (rest : List Record)
    (h : x.id ≠ v) :
    withId v (x :: rest) = withId v rest := by
  simp [withId, List.filter_cons, h]

theorem lookupA_mergeFold (v : Scalar) (hv : pyTruthy v = true) :
    ∀ (rows : List Record) (acc : List (Scalar × Record)),
      lookupA (rows.foldl mergeStep acc) v =
        (lookupA acc v).elim
          (match withId v rows with
           | [] => Option.none
           | f :: rest => some (rest.foldl mergeDup f))
          (fun e => some ((withId v rows).foldl mergeDup e)) := by
  intro rows
  induction rows with
  | nil =>
    intro acc
    cases h : lookupA acc v <;> simp [withId, h, Option.elim]
  | cons x rest ih =>
    intro acc
    rw [List.foldl_cons]
    by_cases hrt : pyTruthy x.id
    · by_cases hrv : x.id = v
      · rw [mergeStep_truthy hrt, ih, withId_cons_self rest hrv]
        rw [hrv, lookupA_updAssoc_self]
        cases h : lookupA acc v <;>
          simp [Option.elim, List.foldl_cons]
      · rw [mergeStep_truthy hrt, ih, withId_cons_ne rest hrv,
          lookupA_updAssoc_ne _ _ _ _ _ (fun he => hrv he.symm)]
    · have hrv : x.id ≠ v := fun he => hrt (he ▸ hv)
      rw [mergeStep_falsy hrt, ih, withId_cons_ne rest hrv]

theorem mergeDup_id (e x : Record) : (mergeDup e x).id = e.id := rfl

theorem mergeFold_keyOK :
    ∀ (rows : List Record) (acc : List (Scalar × Record)),
      (∀ p ∈ acc, p.2.id = p.1 ∧ pyTruthy p.1 = true) →
      ∀ p ∈ rows.foldl mergeStep acc, p.2.id = p.1 ∧ pyTruthy p.1 = true := by
  intro rows
  induction rows with
  | nil => intro acc h; exact h
  | cons x rest ih =>
    intro acc h
    rw [List.foldl_cons]
    apply ih
    intro p hp
    by_cases hrt : pyTruthy x.id
    · rw [mergeStep_truthy hrt] at hp
      rcases mem_updAssoc hp with h1 | ⟨q, hq, rfl⟩ | rfl
      · exact h p h1
      · obtain ⟨hid, htr⟩ := h q hq
        exact ⟨by rw [mergeDup_id, hid], htr⟩
      · exact ⟨rfl, hrt⟩
    · rw [mergeStep_falsy hrt] at hp
      exact h p hp

theorem mergeFold_nodupKeys :
    ∀ (rows : List Record) (acc : List (Scalar × Record)),
      ((acc.map (fun p => p.1)).Nodup) →
      (((rows.foldl mergeStep acc).map (fun p => p.1)).Nodup) := by
  intro rows
  induction rows with
  | nil => intro acc h; exact h
  | cons x rest ih =>
    intro acc h
    rw [List.foldl_cons]
    apply ih
    by_cases hrt : pyTruthy x.id
    · rw [mergeStep_truthy hrt]
      exact nodup_keys_updAssoc _ _ _ _ h
    · rw [mergeStep_falsy hrt]
      exact h

theorem mem_keys_mergeFold (v : Scalar) :
    ∀ (rows : List Record) (acc : List (Scalar × Record)),
      (v ∈ (rows.foldl mergeStep acc).map (fun p => p.1) ↔
        v ∈ acc.map (fun p => p.1) ∨ ∃ x ∈ rows, x.id = v ∧ pyTruthy x.id = true) := by
  intro rows
  induction rows with
  | nil =>
    intro acc
    simp
  | cons x rest ih =>
    intro acc
    rw [List.foldl_cons, ih]
    by_cases hrt : pyTruthy x.id
    · rw [mergeStep_truthy hrt]
      rw [mem_keys_updAssoc]
      constructor
      · rintro ((h1 | rfl) | h1)
        · exact Or.inl h1
        · exact Or.inr ⟨x, List.mem_cons_self x rest, rfl, hrt⟩
        · rcases h1 with ⟨y, hy, hyv, hyt⟩
          exact Or.inr ⟨y, List.mem_cons_of_mem x hy, hyv, hyt⟩
      · rintro (h1 | ⟨y, hy, hyv, hyt⟩)
        · exact Or.inl (Or.inl h1)
        · rcases List.mem_cons.mp hy with rfl | hy2
          · exact Or.inl (Or.inr hyv.symm)
          · exact Or.inr ⟨y, hy2, hyv, hyt⟩
    · rw [mergeStep_falsy hrt]
      constructor
      · rintro (h1 | ⟨y, hy, hyv, hyt⟩)
        · exact Or.inl h1
        · exact Or.inr ⟨y, List.mem_cons_of_mem x hy, hyv, hyt⟩
      · rintro (h1 | ⟨y, hy, hyv, hyt⟩)
        · exact Or.inl h1
        · rcases List.mem_cons.mp hy with rfl | hy2
          · exact absurd hyt hrt
          · exact Or.inr ⟨y, hy2, hyv, hyt⟩

theorem ids_dedupe (rows : List Record) :
    (dedupe_merge rows).map Record.id
      = (rows.foldl mergeStep []).map (fun p => p.1) := by
  unfold dedupe_merge
  rw [List.map_map]
  apply List.map_congr_left
  intro p hp
  exact (mergeFold_keyOK rows [] (by simp) p hp).1

theorem rebuiltSources_nodup (e : Record)
    (he : ∀ l, e.sources = some l → l.Nodup) :
    (rebuiltSources e).Nodup := by
  unfold rebuiltSources
  by_cases h0 : e.sources.getD [] = []
  · rw [if_pos h0]
    cases e.source with
    | none => exact List.nodup_nil
    | some s =>
      by_cases hs : s ≠ "" <;> simp [hs]
  · rw [if_neg h0]
    cases hes : e.sources with
    | none => rw [hes] at h0; simp at h0
    | some l0 =>
      simpa using he l0 hes

theorem appendSource_nodup (base : List String) (x : Record)
    (h : base.Nodup) : (appendSource base x).Nodup := by
  unfold appendSource
  cases x.source with
  | none => exact h
  | some s2 =>
    show (if s2 ≠ "" ∧ s2 ∉ base then base ++ [s2] else base).Nodup
    by_cases hc : s2 ≠ "" ∧ s2 ∉ base
    · rw [if_pos hc]
      simp [List.nodup_append, h, hc.2]
    · rw [if_neg hc]
      exact h

theorem mergeDup_sources (e x : Record) :
    (mergeDup e x).sources = some (appendSource (rebuiltSources e) x) := rfl

theorem mergeFold_sourcesOK :
    ∀ (rows : List Record) (acc : List (Scalar × Record)),
      (∀ x ∈ rows, x.sources = Option.none) →
      (∀ p ∈ acc, ∀ l, p.2.sources = some l → l.Nodup) →
      ∀ p ∈ rows.foldl mergeStep acc, ∀ l, p.2.sources = some l → l.Nodup := by
  intro rows
  induction rows with
  | nil => intro acc _ h; exact h
  | cons x rest ih =>
    intro acc hs h
    rw [List.foldl_cons]
    apply ih (mergeStep acc x) (fun y hy => hs y (List.mem_cons_of_mem x hy))
    intro p hp
    by_cases hrt : pyTruthy x.id
    · rw [mergeStep_truthy hrt] at hp
      rcases mem_updAssoc hp with h1 | ⟨q, hq, rfl⟩ | rfl
      · exact h p h1
      · intro l hl
        rw [mergeDup_sources] at hl
        injection hl with hl2
        rw [← hl2]
        exact appendSource_nodup _ _ (rebuiltSources_nodup _ (h q hq))
      · intro l hl
        rw [hs x (List.mem_cons_self x rest)] at hl
        cases hl
    · rw [mergeStep_falsy hrt] at hp
      exact h p hp

theorem lookupA_of_mem_nodup {κ α : Type} [BEq κ] [LawfulBEq κ] :
    ∀ (tbl : List (κ × α)), ((tbl.map (fun p => p.1)).Nodup) →
      ∀ p ∈ tbl, lookupA tbl p.1 = some p.2 := by
  intro tbl
  induction tbl with
  | nil => intro _ p hp; simp at hp
  | cons q rest ih =>
    intro hnd p hp
    rw [List.map_cons, List.nodup_cons] at hnd
    rcases List.mem_cons.mp hp with rfl | hp2
    · unfold lookupA
      simp [List.find?_cons_of_pos]
    · have hne : (q.1 == p.1) = false := by
        refine beq_eq_false_iff_ne.mpr (fun he => hnd.1 ?_)
        rw [he]
        exact List.mem_map.mpr ⟨p, hp2, rfl⟩
      unfold lookupA
      rw [List.find?_cons_of_neg _ (by simp [hne])]
      exact ih hnd.2 p hp2

/-- C3: merging a record list concatenated with itself yields the same set
of ids as merging it once; output ids are unique (one record per id) and
truthy (records lacking an id are dropped); and — for extractor-shaped
inputs, whose `sources` key is still absent — every output record's
`sources` list holds each provenance tag at most once even though every tag
was seen twice. -/
theorem claim_C3 (L : List Record) :
    (∀ v, v ∈ (dedupe_merge (L ++ L)).map Record.id ↔
      v ∈ (dedupe_merge L).map Record.id)
  ∧ ((dedupe_merge (L ++ L)).map Record.id).Nodup
  ∧ (∀ rec ∈ dedupe_merge (L ++ L), pyTruthy rec.id = true)
  ∧ ((∀ x ∈ L, x.sources = Option.none) →
      ∀ rec ∈ dedupe_merge (L ++ L), ∀ l, rec.sources = some l → l.Nodup) := by
  refine ⟨?_, ?_, ?_, ?_⟩
  · intro v
    rw [ids_dedupe, ids_dedupe, mem_keys_mergeFold, mem_keys_mergeFold]
    simp only [List.map_nil, List.not_mem_nil, false_or, List.mem_append]
    constructor
    · rintro ⟨y, hy | hy, hyv, hyt⟩ <;> exact ⟨y, hy, hyv, hyt⟩
    · rintro ⟨y, hy, hyv, hyt⟩
      exact ⟨y, Or.inl hy, hyv, hyt⟩
  · rw [ids_dedupe]
    exact mergeFold_nodupKeys _ [] (by simp)
  · intro rec hrec
    obtain ⟨p, hp, hpe⟩ := List.mem_map.mp hrec
    obtain ⟨hid, htr⟩ := mergeFold_keyOK (L ++ L) [] (by simp) p hp
    rw [← hpe, hid]
    exact htr
  · intro hs rec hrec
    obtain ⟨p, hp, hpe⟩ := List.mem_map.mp hrec
    rw [← hpe]
    refine mergeFold_sourcesOK (L ++ L) [] ?_ (by simp) p hp
    intro x hx
    rcases List.mem_append.mp hx with h1 | h1 <;> exact hs x h1

theorem claim_C3_witness :
    ((Scalar.str (r"v1")) ∈ (dedupe_merge
        (([{ blankRecord with id := Scalar.str (r"v1"), source := some (r"trending") },
           { blankRecord with id := Scalar.str (r"v1"), source := some (r"hashtag:x") }]
          : List Record) ++
         [{ blankRecord with id := Scalar.str (r"v1"), source := some (r"trending") },
          { blankRecord with id := Scalar.str (r"v1"), source := some (r"hashtag:x") }])).map
        Record.id ↔
      (Scalar.str (r"v1")) ∈ (dedupe_merge
        ([{ blankRecord with id := Scalar.str (r"v1"), source := some (r"trending") },
          { blankRecord with id := Scalar.str (r"v1"), source := some (r"hashtag:x") }]
          : List Record)).map Record.id)
  ∧ (∀ x ∈ ([{ blankRecord with id := Scalar.str (r"v1"), source := some (r"trending") },
       { blankRecord with id := Scalar.str (r"v1"), source := some (r"hashtag:x") }]
        : List Record), x.sources = Option.none)
  ∧ ([r"trending", r"hashtag:x"] : List String).Nodup :=
  ⟨(claim_C3 _).1 (Scalar.str (r"v1")),
   by decide,
   (claim_C3 [{ blankRecord with id := Scalar.str (r"v1"), source := some (r"trending") },
      { blankRecord with id := Scalar.str (r"v1"), source := some (r"hashtag:x") }]).2.2.2
     (by decide) _
     (by exact List.mem_cons_self _ _)
     [r"trending", r"hashtag:x"] (by rfl)⟩

/-- C4: the merger mutates the canonical (first-seen) record of an id only
in its provenance and thumbnail/avatar fields.  If `rec` is the merged
output record for id `v` and `f :: rest` are the sightings of `v` in input
order, then every non-provenance non-thumbnail field of `rec` keeps `f`'s
value; `cover_url` / `author_avatar_url` / `raw` follow the
fill-once-never-overwrite policy over the later sightings (`fillOpt` /
`fillRaw`); and in particular a field already present on the first-seen
record is never overwritten. -/
theorem claim_C4 (L : List Record) (v : Scalar) (rec f : Record)
    (rest : List Record)
    (hrec : rec ∈ dedupe_merge L) (hid : rec.id = v)
    (hw : withId v L = f :: rest) :
    frameOf rec = frameOf f
  ∧ rec.cover_url = fillOpt f.cover_url (rest.map (fun x => x.cover_url))
  ∧ rec.author_avatar_url =
      fillOpt f.author_avatar_url (rest.map (fun x => x.author_avatar_url))
  ∧ rec.raw = fillRaw f.raw (rest.map (fun x => x.raw))
  ∧ (f.cover_url ≠ Option.none → rec.cover_url = f.cover_url)
  ∧ (f.author_avatar_url ≠ Option.none →
      rec.author_avatar_url = f.author_avatar_url)
  ∧ (f.raw ≠ Option.none → rec.raw = f.raw) := by
  obtain ⟨p, hp, hpe⟩ := List.mem_map.mp hrec
  have hkey := mergeFold_keyOK L [] (by simp) p hp
  have hvp : p.1 = v := by rw [← hid, ← hpe, hkey.1]
  have hv : pyTruthy v = true := hvp ▸ hkey.2
  have hnd := mergeFold_nodupKeys L [] (by simp)
  have hlook : lookupA (L.foldl mergeStep []) p.1 = some p.2 :=
    lookupA_of_mem_nodup _ hnd p hp
  rw [hvp, hpe] at hlook
  have hchar := lookupA_mergeFold v hv L []
  rw [hw] at hchar
  have hnone : lookupA ([] : List (Scalar × Record)) v = Option.none := rfl
  rw [hnone] at hchar
  simp only [Option.elim] at hchar
  have hrec_eq : rec = rest.foldl mergeDup f :=
    Option.some.inj (hlook.symm.trans hchar)
  rw [hrec_eq]
  refine ⟨frameOf_mergeFold rest f, cover_mergeFold rest f,
    avatar_mergeFold rest f, raw_mergeFold rest f, ?_, ?_, ?_⟩
  · intro hne
    rw [cover_mergeFold rest f]
    cases hcf : f.cover_url with
    | none => exact absurd hcf hne
    | some s => rw [fillOpt_some]
  · intro hne
    rw [avatar_mergeFold rest f]
    cases hcf : f.author_avatar_url with
    | none => exact absurd hcf hne
    | some s => rw [fillOpt_some]
  · intro hne
    rw [raw_mergeFold rest f]
    cases hcf : f.raw with
    | none => exact absurd hcf hne
    | some t => rw [fillRaw_some]

/-- First sighting of id `w1`: no cover URL, an avatar URL. -/
def recA : Record :=
  { blankRecord with
    id := Scalar.str (r"w1")
    source := some (r"trending")
    author_avatar_url := some (r"avA") }

/-- Later sighting of id `w1`: a cover URL, no avatar URL. -/
def recB : Record :=
  { blankRecord with
    id := Scalar.str (r"w1")
    source := some (r"hashtag:y")
    cover_url := some (r"covB") }

theorem claim_C4_witness :
    ((List.foldl mergeDup recA [recB]) ∈ dedupe_merge [recA, recB]
   ∧ (List.foldl mergeDup recA [recB]).id = Scalar.str (r"w1")
   ∧ withId (Scalar.str (r"w1")) [recA, recB] = recA :: [recB])
  ∧ frameOf (List.foldl mergeDup recA [recB]) = frameOf recA
  ∧ (List.foldl mergeDup recA [recB]).cover_url =
      fillOpt recA.cover_url ([recB].map (fun x => x.cover_url))
  ∧ ((recA.author_avatar_url ≠ Option.none) ∧
      (List.foldl mergeDup recA [recB]).author_avatar_url =
        recA.author_avatar_url) := by
  have hmem : (List.foldl mergeDup recA [recB]) ∈ dedupe_merge [recA, recB] := by
    have h : dedupe_merge [recA, recB] = [List.foldl mergeDup recA [recB]] := rfl
    rw [h]
    exact List.mem_cons_self _ _
  have happ := claim_C4 [recA, recB] (Scalar.str (r"w1")) _ recA [recB] hmem rfl rfl
  exact ⟨⟨hmem, rfl, rfl⟩, happ.1, happ.2.1,
    by decide, happ.2.2.2.2.2.1 (by decide)⟩
